import Mathlib

/-!
Verification of the noodlbox hook utilities (shared hook library and event
dispatcher) against their natural-language specification.

The JavaScript sources are embedded shallowly: every function below is a
direct translation of the corresponding function in the hook library
(tokenize, cleanRegexPattern, extractQueryFromGlob, extractQueryFromGrep,
extractQueryFromBash, extractGrepPattern, extractFindPattern,
getIndexedRepoInfo, the path-shortening step of runNoodlSearch,
parseTextResults) and of the dispatcher entry points in the hook scripts.
Strings are modelled as Lean strings, character scanning as structural
recursion over the underlying character lists; regex-based replacements of
the source are rendered as explicit scanners with the same left-to-right,
leftmost-match, continue-after-replacement semantics as the JavaScript
regexes they translate.  Where a scanner restarts after a non-unit jump we
thread a fuel argument (always instantiated with the string length, which
each step strictly decreases) so that every definition stays executable.
-/

namespace Noodlbox

/-- Single quote character (code 39). -/
def sq : Char := Char.ofNat 39

/-- Double quote character (code 34). -/
def dq : Char := Char.ofNat 34

/-- Backslash character (code 92). -/
def bsl : Char := Char.ofNat 92

/-- Newline character (code 10). -/
def nl : Char := Char.ofNat 10

/-- Left brace character (code 123). -/
def lbr : Char := Char.ofNat 123

/-- Right brace character (code 125). -/
def rbr : Char := Char.ofNat 125

/-- A one-character string holding a single quote. -/
def sqs : String := String.mk [sq]

/-- ASCII model of the JavaScript regex class backslash-s used by the
source (space, tab, newline, carriage return, vertical tab, form feed). -/
def isJsSpace (c : Char) : Bool :=
  c = ' ' || c = Char.ofNat 9 || c = nl || c = Char.ofNat 13 ||
  c = Char.ofNat 11 || c = Char.ofNat 12

/-- ASCII letter (the source regexes use the class a-z with the i flag). -/
def isAsciiLetter (c : Char) : Bool :=
  ('a' ≤ c && c ≤ 'z') || ('A' ≤ c && c ≤ 'Z')

/-- Word character, the JavaScript regex class backslash-w. -/
def isWordChar (c : Char) : Bool :=
  isAsciiLetter c || ('0' ≤ c && c ≤ '9') || c = '_'

/-- First character of an identifier per the source regex a-zA-Z_. -/
def isIdentStart (c : Char) : Bool := isAsciiLetter c || c = '_'

/-- Identifier continuation character per the source regex a-zA-Z0-9_. -/
def isIdentChar (c : Char) : Bool := isWordChar c

/-- Boolean list-prefix test used to model String.prototype.startsWith. -/
def startsWithCs : List Char → List Char → Bool
  | [], _ => true
  | _ :: _, [] => false
  | p :: ps, c :: cs => p = c && startsWithCs ps cs

/-- Boolean substring test used to model String.prototype.includes. -/
def hasSub (p : List Char) : List Char → Bool
  | [] => startsWithCs p []
  | c :: cs => startsWithCs p (c :: cs) || hasSub p cs

/-- startsWith on strings (JavaScript cwd.startsWith(sourcePath + sep)). -/
def jsStartsWith (s pre : String) : Bool := startsWithCs pre.data s.data

/-- includes on strings (JavaScript String.prototype.includes). -/
def jsIncludes (s sub : String) : Bool := hasSub sub.data s.data

/-! ## Shell command tokenizer (function tokenize of the hook library) -/

/-- Mutable loop state of the tokenize function: accumulated tokens, the
token under construction, and the three scanner flags. -/
structure TokSt where
  tokens : List String
  current : String
  inSingle : Bool
  inDouble : Bool
  escape : Bool
  deriving DecidableEq, Repr

/-- Initial state of the tokenize loop. -/
def tokInit : TokSt := ⟨[], "", false, false, false⟩

/-- One iteration of the tokenize loop body, in source order: a pending
escape consumes the character; a backslash outside single quotes arms the
escape; a single quote outside double quotes toggles single-quote mode; a
double quote outside single quotes toggles double-quote mode; unquoted
whitespace flushes a nonempty current token; anything else is appended. -/
def tokStep (st : TokSt) (c : Char) : TokSt :=
  if st.escape then
    { st with current := st.current.push c, escape := false }
  else if c = bsl && !st.inSingle then
    { st with escape := true }
  else if c = sq && !st.inDouble then
    { st with inSingle := !st.inSingle }
  else if c = dq && !st.inSingle then
    { st with inDouble := !st.inDouble }
  else if !st.inSingle && !st.inDouble && isJsSpace c then
    if st.current ≠ "" then
      { st with tokens := st.tokens ++ [st.current], current := "" }
    else st
  else
    { st with current := st.current.push c }

/-- After the loop a nonempty current token is pushed. -/
def tokFinish (st : TokSt) : List String :=
  if st.current ≠ "" then st.tokens ++ [st.current] else st.tokens

/-- function tokenize(command) of the hook library. -/
def tokenize (command : String) : List String :=
  tokFinish (command.data.foldl tokStep tokInit)

/-! ## Pattern cleaner (function cleanRegexPattern of the hook library) -/

/-- Global replacement of the two-character sequence star-star by nothing,
left to right, continuing after each removed occurrence. -/
def rmDoubleStar : List Char → List Char
  | '*' :: '*' :: rest => rmDoubleStar rest
  | c :: rest => c :: rmDoubleStar rest
  | [] => []

/-- Global replacement of remaining single stars by spaces. -/
def starToSpace (cs : List Char) : List Char :=
  cs.map fun c => if c = '*' then ' ' else c

/-- Locate the matching closer for a lazily quantified group: the nearest
occurrence of the closing character with no newline before it (the regex
dot of the source does not match newlines).  Returns the characters after
the closer. -/
def groupRest (close : Char) (cs : List Char) : Option (List Char) :=
  let inside := cs.takeWhile fun c => c ≠ close && c ≠ nl
  match cs.drop inside.length with
  | c :: rest => if c = close then some rest else none
  | [] => none

/-- Global replacement, by a single space, of: a backslash-escaped
character, a bracket expression, a parenthesized group, or a brace
expression (the third replace of cleanRegexPattern).  Alternatives are
tried in source order at each position; an unmatched opener is left in
place and scanning advances one character.  Fueled: each step consumes at
least one character, so fuel equal to the string length suffices. -/
def rmGroups : Nat → List Char → List Char
  | 0, cs => cs
  | _ + 1, [] => []
  | f + 1, c :: cs =>
    if c = bsl then
      match cs with
      | d :: ds => if d ≠ nl then ' ' :: rmGroups f ds else c :: rmGroups f cs
      | [] => c :: rmGroups f cs
    else if c = '[' then
      match groupRest ']' cs with
      | some rest => ' ' :: rmGroups f rest
      | none => c :: rmGroups f cs
    else if c = '(' then
      match groupRest ')' cs with
      | some rest => ' ' :: rmGroups f rest
      | none => c :: rmGroups f cs
    else if c = lbr then
      match groupRest rbr cs with
      | some rest => ' ' :: rmGroups f rest
      | none => c :: rmGroups f cs
    else c :: rmGroups f cs

/-- Replacement of the remaining regex metacharacters by spaces (the
fourth replace of cleanRegexPattern). -/
def metaToSpace (cs : List Char) : List Char :=
  cs.map fun c =>
    if c = '^' || c = '$' || c = '.' || c = '|' || c = '?' || c = '+' ||
        c = '*' || c = bsl then ' ' else c

/-- Collapse every run of whitespace to a single space (the fifth replace
of cleanRegexPattern).  The flag records whether the previous character
was whitespace. -/
def collapseWs (prevWs : Bool) : List Char → List Char
  | [] => []
  | c :: cs =>
    if isJsSpace c then
      if prevWs then collapseWs true cs else ' ' :: collapseWs true cs
    else c :: collapseWs false cs

/-- Model of String.prototype.trim on character lists. -/
def trimCs (cs : List Char) : List Char :=
  ((cs.dropWhile isJsSpace).reverse.dropWhile isJsSpace).reverse

/-- The full cleaning pipeline of cleanRegexPattern on character lists. -/
def cleanChars (cs : List Char) : List Char :=
  let s1 := rmDoubleStar cs
  let s2 := starToSpace s1
  let s3 := rmGroups s2.length s2
  let s4 := metaToSpace s3
  trimCs (collapseWs false s4)

/-- function cleanRegexPattern(pattern) of the hook library.  A falsy
(empty) input and an empty cleaned result both give null. -/
def cleanRegexPattern (pattern : String) : Option String :=
  if pattern = "" then none
  else
    let cleaned := cleanChars pattern.data
    if cleaned = [] then none else some (String.mk cleaned)

/-! ## Glob extractor (function extractQueryFromGlob of the hook library) -/

/-- Tail of the pure-extension regex: a star, a dot, then one or more
ASCII letters up to the end of the pattern. -/
def extTail1 : List Char → Bool
  | '*' :: '.' :: rest => decide (rest ≠ []) && rest.all isAsciiLetter
  | _ => false

/-- Tail of the extension-group regex: a star, a dot, then a brace group
of one or more letters and commas up to the end of the pattern. -/
def extTail2 : List Char → Bool
  | '*' :: '.' :: c :: rest =>
    if c = lbr then
      let inner := rest.takeWhile fun d => isAsciiLetter d || d = ','
      decide (inner ≠ []) && decide (rest.drop inner.length = [rbr])
    else false
  | _ => false

/-- Strip one word-segment prefix: one or more word characters followed by
slash star star slash, as in the second alternative of the pure-extension
regexes. -/
def stripWordStarStar (cs : List Char) : Option (List Char) :=
  let w := cs.takeWhile isWordChar
  if w = [] then none
  else
    match cs.drop w.length with
    | '/' :: '*' :: '*' :: '/' :: rest => some rest
    | _ => none

/-- Anchored match of one of the pure-extension regexes: any number of
star-star-slash or segment-slash-star-star-slash prefixes followed by the
given tail.  The alternatives are mutually exclusive on their first
characters, so this deterministic scan coincides with the backtracking
regex.  Fueled; each prefix consumes at least three characters. -/
def pureExtScan (tail : List Char → Bool) : Nat → List Char → Bool
  | 0, _ => false
  | f + 1, cs =>
    tail cs ||
      match cs with
      | '*' :: '*' :: '/' :: rest => pureExtScan tail f rest
      | _ =>
        match stripWordStarStar cs with
        | some rest => pureExtScan tail f rest
        | none => false

/-- The first skip test of extractQueryFromGlob: the pattern is purely a
file-extension filter. -/
def isPureExtensionGlob (pattern : String) : Bool :=
  pureExtScan extTail1 (pattern.data.length + 1) pattern.data

/-- The second skip test of extractQueryFromGlob: the pattern is purely an
extension-group filter. -/
def isExtensionGroupGlob (pattern : String) : Bool :=
  pureExtScan extTail2 (pattern.data.length + 1) pattern.data

/-- Global removal of brace groups (the brace replace of the glob
extractor): a left brace, one or more non-right-brace characters, and a
right brace are dropped; an unmatched left brace is kept.  Fueled. -/
def rmBraceGroups : Nat → List Char → List Char
  | 0, cs => cs
  | _ + 1, [] => []
  | f + 1, c :: cs =>
    if c = lbr then
      let inner := cs.takeWhile fun d => d ≠ rbr
      match cs.drop inner.length with
      | d :: rest =>
        if d = rbr && decide (inner ≠ []) then rmBraceGroups f rest
        else c :: rmBraceGroups f cs
      | [] => c :: rmBraceGroups f cs
    else c :: rmBraceGroups f cs

/-- Split on slashes and dots, keeping empty segments, as
String.prototype.split with a character class does. -/
def splitSlashDot : List Char → List (List Char)
  | [] => [[]]
  | c :: cs =>
    match splitSlashDot cs with
    | [] => [[c]]
    | t :: ts =>
      if c = '/' || c = '.' then [] :: t :: ts
      else (c :: t) :: ts

/-- Join surviving segments with single spaces (Array.prototype.join). -/
def joinSpace : List (List Char) → List Char
  | [] => []
  | [p] => p
  | p :: ps => p ++ ' ' :: joinSpace ps

/-- function extractQueryFromGlob(pattern) of the hook library. -/
def extractQueryFromGlob (pattern : String) : Option String :=
  if pattern = "" then none
  else if isPureExtensionGlob pattern then none
  else if isExtensionGroupGlob pattern then none
  else
    let s1 := rmDoubleStar pattern.data
    let s2 := s1.filter fun c => c ≠ '*'
    let s3 := rmBraceGroups s2.length s2
    let parts := (splitSlashDot s3).filter fun p => decide (p ≠ []) && decide (1 < p.length)
    let parts := parts.filter fun p => !startsWithCs ['.'] p
    if parts ≠ [] then some (String.mk (joinSpace parts)) else none

/-- function extractQueryFromGrep(pattern) of the hook library. -/
def extractQueryFromGrep (pattern : String) : Option String :=
  cleanRegexPattern pattern

/-! ## Bash extractor (functions extractQueryFromBash, extractGrepPattern
and extractFindPattern of the hook library) -/

/-- Search commands intercepted by the hook (constant SEARCH_COMMANDS). -/
def SEARCH_COMMANDS : List String :=
  ["grep", "egrep", "fgrep", "rg", "ag", "ack", "find"]

/-- Value-consuming flags for the grep family (GREP_FLAGS_WITH_VALUES). -/
def GREP_FLAGS_WITH_VALUES : List String :=
  ["-e", "-f", "-m", "-A", "-B", "-C", "-D", "-d", "--include", "--exclude",
   "--exclude-dir", "--include-dir", "--label"]

/-- Value-consuming flags for ripgrep (RG_FLAGS_WITH_VALUES). -/
def RG_FLAGS_WITH_VALUES : List String :=
  ["-e", "-f", "-m", "-A", "-B", "-C",
   "-g", "--glob", "-t", "--type", "-T", "--type-not", "--max-count",
   "--max-depth", "--max-filesize", "-j", "--threads", "-M", "--max-columns",
   "--context-separator", "--field-context-separator", "--path-separator",
   "-r", "--replace", "--pre", "--pre-glob", "--engine"]

/-- Value-consuming flags for ag and ack (AG_ACK_FLAGS_WITH_VALUES). -/
def AG_ACK_FLAGS_WITH_VALUES : List String :=
  ["-A", "-B", "-C", "-G", "--ignore-dir", "-g"]

/-- Maximum accepted command length (constant MAX_COMMAND_LENGTH). -/
def MAX_COMMAND_LENGTH : Nat := 1000

/-- POSIX basename as used through path.basename: trailing slashes are
ignored and the part after the last remaining slash is returned. -/
def jsBasename (s : String) : String :=
  String.mk (((s.data.reverse.dropWhile fun c => c = '/').takeWhile fun c => c ≠ '/').reverse)

/-- The token scan of extractGrepPattern: walk the tokens after the
command name with a skip flag; a token starting with a dash is a flag and,
when it is in the dialect set, consumes the next token; the value of an
explicit -e flag is tried as the pattern at once; otherwise the first
non-flag token whose cleaned form has length at least three is returned. -/
def grepPatternScan (flags : List String) : List String → Bool → Option String
  | [], _ => none
  | _ :: ts, true => grepPatternScan flags ts false
  | t :: ts, false =>
    if jsStartsWith t "-" then
      let skip := flags.contains t
      if t = "-e" then
        match ts with
        | [] => none
        | next :: _ =>
          match cleanRegexPattern next with
          | some c => if 3 ≤ c.length then some c else grepPatternScan flags ts skip
          | none => grepPatternScan flags ts skip
      else grepPatternScan flags ts skip
    else
      match cleanRegexPattern t with
      | some c => if 3 ≤ c.length then some c else grepPatternScan flags ts false
      | none => grepPatternScan flags ts false

/-- function extractGrepPattern(tokens, startIndex, cmd): dialect flag-set
selection followed by the token scan over the tokens after startIndex. -/
def extractGrepPattern (tokens : List String) (startIndex : Nat) (cmd : String) : Option String :=
  let flagsWithValues :=
    if cmd = "rg" then RG_FLAGS_WITH_VALUES
    else if cmd = "ag" || cmd = "ack" then AG_ACK_FLAGS_WITH_VALUES
    else GREP_FLAGS_WITH_VALUES
  grepPatternScan flagsWithValues (tokens.drop (startIndex + 1)) false

/-- Pattern flags recognized by extractFindPattern. -/
def FIND_PATTERN_FLAGS : List String :=
  ["-name", "-iname", "-path", "-ipath", "-regex", "-iregex"]

/-- Collapse every run of stars to a single space (the third replace of
the find-pattern cleaning). -/
def collapseStars (prevStar : Bool) : List Char → List Char
  | [] => []
  | c :: cs =>
    if c = '*' then
      if prevStar then collapseStars true cs else ' ' :: collapseStars true cs
    else c :: collapseStars false cs

/-- Remove a trailing dot-plus-letters file extension (the fourth replace
of the find-pattern cleaning, anchored at the end of the string). -/
def rmTrailingExt (cs : List Char) : List Char :=
  let rev := cs.reverse
  let letters := rev.takeWhile isAsciiLetter
  match rev.drop letters.length with
  | '.' :: rest => if letters = [] then cs else rest.reverse
  | _ => cs

/-- The per-candidate cleaning chain of extractFindPattern: strip leading
and trailing stars, collapse internal star runs to spaces, drop a trailing
file extension, trim. -/
def findClean (cs : List Char) : List Char :=
  let s1 := cs.dropWhile fun c => c = '*'
  let s2 := (s1.reverse.dropWhile fun c => c = '*').reverse
  let s3 := collapseStars false s2
  trimCs (rmTrailingExt s3)

/-- The token scan of extractFindPattern: at a pattern flag followed by a
value, clean the value and return it if it has length at least three;
otherwise keep scanning from the next token. -/
def findPatternScan : List String → Option String
  | [] => none
  | [_] => none
  | t :: next :: rest =>
    if FIND_PATTERN_FLAGS.contains t then
      let cleaned := findClean next.data
      if cleaned ≠ [] && 3 ≤ cleaned.length then some (String.mk cleaned)
      else findPatternScan (next :: rest)
    else findPatternScan (next :: rest)

/-- function extractFindPattern(tokens, startIndex) of the hook library. -/
def extractFindPattern (tokens : List String) (startIndex : Nat) : Option String :=
  findPatternScan (tokens.drop (startIndex + 1))

/-- function extractQueryFromBash(command) of the hook library: length
guard, tokenization, environment-assignment skip to find the base command,
dispatch on the recognized search command. -/
def extractQueryFromBash (command : String) : Option String :=
  if command = "" || MAX_COMMAND_LENGTH < command.length then none
  else
    let tokens := tokenize command
    if tokens = [] then none
    else
      let cmdIndex := (tokens.findIdx? fun t => !jsIncludes t "=").getD 0
      let baseCmd := jsBasename (tokens.getD cmdIndex "")
      if SEARCH_COMMANDS.contains baseCmd then
        if baseCmd = "find" then extractFindPattern tokens cmdIndex
        else extractGrepPattern tokens cmdIndex baseCmd
      else none

/-! ## Indexed-repository cache reader (function getIndexedRepoInfo of
the hook library) -/

/-- Cache time-to-live in milliseconds (constant CACHE_TTL_MS). -/
def CACHE_TTL_MS : Int := 600000

/-- One repository row of the cache payload. -/
structure Repo where
  id : String
  full_name : String
  source_path : String
  indexed : Bool
  deriving DecidableEq, Repr

/-- The cache payload as read from JSON: either field may be absent
(the source guards with falsiness checks on cache.repositories and
cache.path_index).  path_index is an object, modelled as an association
list in property-insertion order, as Object.entries iterates it. -/
structure RepoCachePayload where
  repositories : Option (List Repo)
  path_index : Option (List (String × Nat))
  deriving DecidableEq, Repr

/-- State of the cache file as seen by getIndexedRepoInfo: the file can be
absent, unreadable or unparsable JSON (both throw and are caught), or a
parsed CacheEntry wrapper whose data field may itself be missing. -/
inductive CacheFile where
  | missing : CacheFile
  | malformed : CacheFile
  | parsed (cached_at : Int) (data : Option RepoCachePayload) : CacheFile
  deriving DecidableEq, Repr

/-- Result of the lookup: a RepoInfo object for an indexed repository,
false (notIndexed) for a definitely-not-indexed directory, null (unknown)
for a missing, stale or malformed cache. -/
inductive RepoLookup where
  | indexedRepo (repository_id repository_name : String) : RepoLookup
  | notIndexed : RepoLookup
  | unknown : RepoLookup
  deriving DecidableEq, Repr

/-- The shared tail of both match arms: an indexed repository row yields
the RepoInfo object, a non-indexed row yields false. -/
def resolveRepo (repo : Repo) : RepoLookup :=
  if repo.indexed then .indexedRepo repo.id repo.full_name else .notIndexed

/-- Object-property lookup in path_index (first binding of the key). -/
def pathIndexGet (pidx : List (String × Nat)) (key : String) : Option Nat :=
  match pidx.find? fun e => e.1 = key with
  | some e => some e.2
  | none => none

/-- The prefix-match loop of getIndexedRepoInfo: for each path_index entry
in iteration order, if cwd starts with the source path plus slash and the
row index resolves to a repository, resolve it; entries whose index does
not resolve are skipped; falling off the loop returns false. -/
def prefixMatchLoop (repos : List Repo) (cwd : String) : List (String × Nat) → RepoLookup
  | [] => .notIndexed
  | (sourcePath, idx) :: rest =>
    if jsStartsWith cwd (sourcePath ++ "/") then
      match repos.get? idx with
      | some repo => resolveRepo repo
      | none => prefixMatchLoop repos cwd rest
    else prefixMatchLoop repos cwd rest

/-- function getIndexedRepoInfo(cwd) of the hook library, with the wall
clock and the cache-file state made explicit.  An exact path_index hit
whose row index does not resolve falls through to the prefix loop, as in
the source. -/
def getIndexedRepoInfo (now : Int) (file : CacheFile) (cwd : String) : RepoLookup :=
  match file with
  | .missing => .unknown
  | .malformed => .unknown
  | .parsed cached_at data =>
    if CACHE_TTL_MS < now - cached_at then .unknown
    else
      match data with
      | none => .unknown
      | some cache =>
        match cache.repositories, cache.path_index with
        | some repos, some pidx =>
          let exact :=
            match pathIndexGet pidx cwd with
            | some idx => repos.get? idx
            | none => none
          match exact with
          | some repo => resolveRepo repo
          | none => prefixMatchLoop repos cwd pidx
        | _, _ => .unknown

/-! ## Path shortening (the result rewrite inside runNoodlSearch) -/

/-- JavaScript String.prototype.replaceAll for a nonempty pattern:
leftmost occurrence, replace, continue scanning after the consumed
occurrence.  Fueled; every use instantiates the fuel with the subject
length, which bounds the number of steps since each step consumes at
least one character of the subject. -/
def replaceAllCs (p r : List Char) : Nat → List Char → List Char
  | 0, cs => cs
  | _ + 1, [] => []
  | f + 1, c :: cs =>
    if startsWithCs p (c :: cs) then r ++ replaceAllCs p r f ((c :: cs).drop p.length)
    else c :: replaceAllCs p r f cs

/-- The cwd-plus-separator pattern built by runNoodlSearch: cwd itself if
it already ends with a slash, otherwise cwd plus a slash. -/
def cwdWithSlash (cwd : String) : String :=
  if cwd.data.getLast? = some '/' then cwd else cwd ++ "/"

/-- The path-shortening transform of runNoodlSearch: every occurrence of
cwd plus separator in the result text is rewritten to a dot-slash. -/
def shortenResultPaths (cwd result : String) : String :=
  String.mk (replaceAllCs (cwdWithSlash cwd).data ['.', '/'] result.data.length result.data)

/-! ## Free-text result parsing (function parseTextResults of the hook
library) -/

/-- The split of the result text before each occurrence of the process
label, modelling String.prototype.split with a zero-width lookahead: a
block boundary is opened at every position, other than the start, where
the label begins. -/
def splitBlocksAux (label : List Char) (acc : List Char) : List Char → List (List Char)
  | [] => [acc.reverse]
  | c :: cs =>
    if startsWithCs label (c :: cs) && decide (acc ≠ []) then
      acc.reverse :: splitBlocksAux label [c] cs
    else splitBlocksAux label (c :: acc) cs

/-- Split a result text into process blocks. -/
def splitProcessBlocks (cs : List Char) : List (List Char) :=
  match cs with
  | [] => [[]]
  | c :: rest => splitBlocksAux "process:".data [c] rest

/-- The global scan of the symbol regex: at each position where the name
label matches, skip it and any whitespace, and capture a maximal
identifier; scanning resumes after the identifier.  A label not followed
by an identifier fails at that position and scanning advances one
character.  Fueled; each step consumes at least one character. -/
def scanNames : Nat → List Char → List (List Char)
  | 0, _ => []
  | _ + 1, [] => []
  | f + 1, c :: cs =>
    if startsWithCs "name:".data (c :: cs) then
      let rest := (c :: cs).drop 5
      let rest2 := rest.dropWhile isJsSpace
      match rest2 with
      | d :: ds =>
        if isIdentStart d then
          let idTail := ds.takeWhile isIdentChar
          (d :: idTail) :: scanNames f (ds.drop idTail.length)
        else scanNames f cs
      | [] => scanNames f cs
    else scanNames f cs

/-- The stop-words excluded from symbol names. -/
def NAME_STOP_WORDS : List String := ["type", "name", "true", "false", "null"]

/-- ASCII lower-casing as used through String.prototype.toLowerCase on
identifier names. -/
def lowerStr (s : String) : String := String.mk (s.data.map Char.toLower)

/-- The per-name filter of the symbol loop: names longer than two
characters whose lower-cased form is not a stop-word are kept. -/
def keepName (s : String) : Bool :=
  2 < s.length && !NAME_STOP_WORDS.contains (lowerStr s)

/-- The filtered symbol names of one block, in scan order and with
multiplicity, as accumulated by the while loop of parseTextResults. -/
def blockNames (block : List Char) : List String :=
  ((scanNames block.length block).map String.mk).filter keepName

/-- First-occurrence deduplication with an accumulator of already seen
names. -/
def dedupAux (seen : List String) : List String → List String
  | [] => []
  | x :: xs => if seen.contains x then dedupAux seen xs else x :: dedupAux (x :: seen) xs

/-- First-occurrence deduplication, as the Set spread of the source. -/
def dedupNames (l : List String) : List String := dedupAux [] l

/-- The accumulated parse state: the ordered entry-point map, the ordered
set of all seen symbols, and the flow counter. -/
structure TextInfo where
  entryPoints : List (String × List (List String))
  allSymbols : List String
  totalFlows : Nat
  deriving DecidableEq, Repr

/-- The empty parse state. -/
def emptyTextInfo : TextInfo := ⟨[], [], 0⟩

/-- Map.has on the ordered entry-point map. -/
def epHas (m : List (String × List (List String))) (k : String) : Bool :=
  m.any fun e => e.1 = k

/-- Map.get on the ordered entry-point map. -/
def epGet (m : List (String × List (List String))) (k : String) : List (List String) :=
  match m.find? fun e => e.1 = k with
  | some e => e.2
  | none => []

/-- Pushing a flow onto the array stored under a key. -/
def epPush (m : List (String × List (List String))) (k : String) (flow : List String) :
    List (String × List (List String)) :=
  m.map fun e => if e.1 = k then (e.1, e.2 ++ [flow]) else e

/-- The flow key used for duplicate suppression: the names joined by the
arrow separator. -/
def joinArrow : List String → String
  | [] => ""
  | [s] => s
  | s :: ss => s ++ "→" ++ joinArrow ss

/-- Insertion-ordered set extension of the allSymbols map. -/
def addSymbols (seen : List String) (names : List String) : List String :=
  names.foldl (fun acc n => if acc.contains n then acc else acc ++ [n]) seen

/-- Processing of one block by the loop body of parseTextResults: blocks
without the process label are skipped; the filtered names are accumulated
into allSymbols; when there are at least two names (with multiplicity)
the deduplicated list yields the entry point and a flow of at most four
further names, which is appended unless an equal flow is already
recorded under that entry point. -/
def processTextBlock (info : TextInfo) (block : List Char) : TextInfo :=
  if !hasSub "process:".data block then info
  else
    let symbolNames := blockNames block
    let info := { info with allSymbols := addSymbols info.allSymbols symbolNames }
    if 2 ≤ symbolNames.length then
      let uniqueSymbols := dedupNames symbolNames
      let entryPoint := uniqueSymbols.headD ""
      let flow := (uniqueSymbols.drop 1).take 4
      let m := if epHas info.entryPoints entryPoint then info.entryPoints
               else info.entryPoints ++ [(entryPoint, [])]
      let existing := epGet m entryPoint
      if existing.any (fun f => joinArrow f = joinArrow flow) then
        { info with entryPoints := m }
      else
        { info with entryPoints := epPush m entryPoint flow,
                    totalFlows := info.totalFlows + 1 }
    else info

/-- function parseTextResults(resultText) of the hook library, returning
the accumulated state (the displayed symbols field of the source is the
first fifty allSymbols entries). -/
def parseTextResults (resultText : String) : TextInfo :=
  (splitProcessBlocks resultText.data).foldl processTextBlock emptyTextInfo

/-! ## Event dispatcher (async function main and its catch handler in the
hook scripts) -/

/-- The decision object printed by the plugin-script dispatcher when its
promise chain rejects. -/
def approveDecision : String := "\x7b\"decision\":\"approve\"\x7d"

/-- Outcome of a JavaScript computation: a value or a thrown exception. -/
inductive JsResult (α : Type) where
  | ok (a : α) : JsResult α
  | thrown : JsResult α
  deriving DecidableEq

/-- The dispatcher input object, with the fields main consults.  Standard
input that fails JSON.parse is modelled as the absence of this object. -/
structure HookInput where
  hook_event_name : Option String
  tool_name : Option String
  deriving DecidableEq

/-- async function main of scripts/noodlbox.js (the plugin-hook variant)
together with its catch handler, as a function from the parsed standard
input to the list of JSON objects written to standard output.  The two
event handlers are abstracted as parameters; they are never invoked when
standard input is unparsable.  An unparsable input makes readInput throw,
so main rejects and the catch handler prints an approve decision; an
unrecognized event prints an approve decision only when a tool name is
present; a handler exception is likewise caught by the catch handler. -/
def runMainPlugin (stdin : Option HookInput)
    (onSessionStart onPreToolUse : HookInput → JsResult (List String)) : List String :=
  match stdin with
  | none => [approveDecision]
  | some input =>
    let ev := input.hook_event_name.getD ""
    let body : JsResult (List String) :=
      if ev = "SessionStart" then onSessionStart input
      else if ev = "PreToolUse" then onPreToolUse input
      else .ok (if input.tool_name.isSome then [approveDecision] else [])
    match body with
    | .ok out => out
    | .thrown => [approveDecision]

/-- async function main of the settings-configured hook variant in
scripts/noodlbox.js together with its catch handler: identical routing,
but an unrecognized event and a rejected promise both write nothing. -/
def runMainSilent (stdin : Option HookInput)
    (onSessionStart onPreToolUse : HookInput → JsResult (List String)) : List String :=
  match stdin with
  | none => []
  | some input =>
    let ev := input.hook_event_name.getD ""
    let body : JsResult (List String) :=
      if ev = "SessionStart" then onSessionStart input
      else if ev = "PreToolUse" then onPreToolUse input
      else .ok []
    match body with
    | .ok out => out
    | .thrown => []

/-! ## Theorems -/

/-- C1: for every working directory, a cache file that exists and parses
but whose cached_at timestamp is older than now minus 600000 ms, and a
cache file that is malformed (unparsable JSON, or a payload lacking
repositories or path_index), make the lookup return unknown and never
notIndexed, whatever path_index would otherwise resolve. -/
theorem cache_stale_or_malformed_is_unknown
    (now t : Int) (cwd : String) (pidx : List (String × Nat)) (repos : List Repo)
    (h : CACHE_TTL_MS < now - t) :
    (∀ d : Option RepoCachePayload,
      getIndexedRepoInfo now (.parsed t d) cwd = .unknown)
    ∧ getIndexedRepoInfo now .malformed cwd = .unknown
    ∧ getIndexedRepoInfo now (.parsed now none) cwd = .unknown
    ∧ getIndexedRepoInfo now (.parsed now (some ⟨none, some pidx⟩)) cwd = .unknown
    ∧ getIndexedRepoInfo now (.parsed now (some ⟨some repos, none⟩)) cwd = .unknown := by
  have hfresh : ¬ CACHE_TTL_MS < now - now := by
    simp [CACHE_TTL_MS]
  refine ⟨fun d => ?_, rfl, ?_, ?_, ?_⟩ <;>
    simp [getIndexedRepoInfo, h, hfresh]

/-- C1 witness: a one-minute-stale entry whose path_index resolves the
working directory to a known not-indexed repository still reads unknown. -/
theorem cache_stale_or_malformed_is_unknown_witness :
    getIndexedRepoInfo 1000000
      (.parsed 0 (some ⟨some [⟨"r1", "me/app", "/repo", false⟩], some [("/repo", 0)]⟩))
      "/repo" = .unknown :=
  (cache_stale_or_malformed_is_unknown 1000000 0 "/repo" [("/repo", 0)]
    [⟨"r1", "me/app", "/repo", false⟩] (by decide)).1 _

/-- C2: against a fresh, well-formed cache with one entry and no exact
path_index hit for the working directory, the lookup resolves the entry
exactly when the working directory starts with the cached source path
followed by the separator, in which case the indexed flag selects the
result; a bare string prefix without the separator does not match and the
lookup falls through to notIndexed. -/
theorem cache_prefix_match (now t : Int) (cwd sp : String) (repo : Repo)
    (hfresh : now - t ≤ CACHE_TTL_MS) (hne : cwd ≠ sp) :
    getIndexedRepoInfo now (.parsed t (some ⟨some [repo], some [(sp, 0)]⟩)) cwd
      = if jsStartsWith cwd (sp ++ "/") then
          (if repo.indexed then .indexedRepo repo.id repo.full_name else .notIndexed)
        else .notIndexed := by
  have h1 : ¬ CACHE_TTL_MS < now - t := not_lt.mpr hfresh
  have h2 : (sp = cwd) = False := by
    simp only [eq_iff_iff, iff_false]
    exact fun h => hne h.symm
  by_cases hs : jsStartsWith cwd (sp ++ "/") <;>
    simp [getIndexedRepoInfo, h1, pathIndexGet, List.find?, h2,
      prefixMatchLoop, hs, resolveRepo]

/-- C2 witness: with a fresh cache holding the indexed repository at
source path /repo, the directory /repo/sub/dir resolves by prefix match
while /repository-other, sharing only a bare string prefix, does not. -/
theorem cache_prefix_match_witness :
    getIndexedRepoInfo 1000
      (.parsed 500 (some ⟨some [⟨"r1", "me/app", "/repo", true⟩], some [("/repo", 0)]⟩))
      "/repo/sub/dir" = .indexedRepo "r1" "me/app"
    ∧ getIndexedRepoInfo 1000
      (.parsed 500 (some ⟨some [⟨"r1", "me/app", "/repo", true⟩], some [("/repo", 0)]⟩))
      "/repository-other" = .notIndexed := by
  constructor
  · rw [cache_prefix_match 1000 500 "/repo/sub/dir" "/repo"
      ⟨"r1", "me/app", "/repo", true⟩ (by decide) (by decide)]
    decide
  · rw [cache_prefix_match 1000 500 "/repository-other" "/repo"
      ⟨"r1", "me/app", "/repo", true⟩ (by decide) (by decide)]
    decide

/-- C3: the bash extractor applies the per-tool-dialect value-consuming
flag sets: for rg the -g flag consumes the following glob, so the pattern
is the later token, and for grep the -A flag consumes its numeric
argument, so the pattern is the token after it. -/
theorem extractQueryFromBash_dialect_flags :
    extractQueryFromBash ("rg -g " ++ sqs ++ "*.ts" ++ sqs ++ " handleAuth")
      = some "handleAuth"
    ∧ extractQueryFromBash "grep -A 3 needle file.txt" = some "needle" := by
  decide

/-- C5: the tokenizer splits on unquoted whitespace, keeps single-quoted
spans as one token with the quotes dropped, lets a backslash escape the
following character, consumes an unterminated quote to the end of input,
and maps the empty command to the empty sequence. -/
theorem tokenize_quoting_examples :
    tokenize ("grep -n " ++ sqs ++ "foo bar" ++ sqs ++ " baz")
      = ["grep", "-n", "foo bar", "baz"]
    ∧ tokenize ("grep " ++ sqs ++ "abc") = ["grep", "abc"]
    ∧ tokenize "a\\ b" = ["a b"]
    ∧ tokenize "" = [] := by
  decide

/-- One tokenize step never records an empty token. -/
theorem tokStep_no_empty_token (st : TokSt) (c : Char)
    (h : ∀ s ∈ st.tokens, s ≠ "") : ∀ s ∈ (tokStep st c).tokens, s ≠ "" := by
  unfold tokStep
  repeat' split
  all_goals
    first
    | exact h
    | · intro s hs
        rcases List.mem_append.mp hs with hs | hs
        · exact h s hs
        · simp only [List.mem_singleton] at hs
          subst hs
          assumption

/-- The tokenize loop never records an empty token. -/
theorem tokenize_loop_no_empty_token (cs : List Char) :
    ∀ st : TokSt, (∀ s ∈ st.tokens, s ≠ "") →
      ∀ s ∈ tokFinish (cs.foldl tokStep st), s ≠ "" := by
  induction cs with
  | nil =>
    intro st h s hs
    unfold tokFinish at hs
    split at hs
    · rcases List.mem_append.mp hs with hs | hs
      · exact h s hs
      · simp only [List.mem_singleton] at hs
        subst hs
        assumption
    · exact h s hs
  | cons c cs ih =>
    intro st h
    exact ih (tokStep st c) (tokStep_no_empty_token st c h)

/-- In a neutral scanner state, a pair of adjacent single quotes is
consumed without any effect on the state. -/
theorem tokStep_adjacent_quotes (st : TokSt)
    (h1 : st.inSingle = false) (h2 : st.inDouble = false) (h3 : st.escape = false) :
    tokStep (tokStep st sq) sq = st := by
  cases st
  simp_all [tokStep, sq, bsl, dq, isJsSpace, nl, Char.ofNat]

/-- C10: an empty quoted argument produces no token: the concrete command
grep-empty-quotes-foo tokenizes without an empty token, no tokenizer
output ever contains the empty token, a pair of adjacent single quotes at
any neutral position of a command is dropped entirely, and the extractor
consequently reads the later token as the pattern. -/
theorem tokenize_empty_quotes_dropped :
    tokenize ("grep " ++ sqs ++ sqs ++ " foo") = ["grep", "foo"]
    ∧ (∀ command : String, ∀ s ∈ tokenize command, s ≠ "")
    ∧ (∀ pre post : String,
        (pre.data.foldl tokStep tokInit).inSingle = false →
        (pre.data.foldl tokStep tokInit).inDouble = false →
        (pre.data.foldl tokStep tokInit).escape = false →
        tokenize (pre ++ (sqs ++ sqs) ++ post) = tokenize (pre ++ post))
    ∧ extractQueryFromBash ("grep " ++ sqs ++ sqs ++ " foo") = some "foo" := by
  refine ⟨by decide, ?_, ?_, by decide⟩
  · intro command
    exact tokenize_loop_no_empty_token command.data tokInit (by simp [tokInit])
  · intro pre post h1 h2 h3
    unfold tokenize
    simp only [String.data_append, List.foldl_append,
      show sqs.data = [sq] from rfl, List.foldl_cons, List.foldl_nil]
    rw [tokStep_adjacent_quotes _ h1 h2 h3]

/-- C10 witness: applying the neutral-position clause at the concrete
command shows the quoted empty argument is dropped. -/
theorem tokenize_empty_quotes_dropped_witness :
    tokenize ("grep " ++ (sqs ++ sqs) ++ " foo") = tokenize ("grep " ++ " foo") :=
  tokenize_empty_quotes_dropped.2.2.1 "grep " " foo" (by decide) (by decide) (by decide)

/-- C4 counterexample: on unparsable standard input the plugin-script
dispatcher writes a nonempty approve decision, not zero bytes. -/
theorem dispatcher_unparsable_emits_approve :
    runMainPlugin none (fun _ => .ok []) (fun _ => .ok []) ≠ [] := by
  decide

/-- C4 amended: on unparsable standard input neither dispatcher variant
lets the fault escape; the plugin-script variant writes exactly one
approve decision object, the settings-configured variant writes nothing. -/
theorem dispatcher_unparsable_fail_open
    (onSessionStart onPreToolUse : HookInput → JsResult (List String)) :
    runMainPlugin none onSessionStart onPreToolUse = [approveDecision]
    ∧ runMainSilent none onSessionStart onPreToolUse = [] :=
  ⟨rfl, rfl⟩

/-- C4 witness: the fail-open behaviors at trivial handlers. -/
theorem dispatcher_unparsable_fail_open_witness :
    runMainPlugin none (fun _ => .ok []) (fun _ => .ok []) = [approveDecision]
    ∧ runMainSilent none (fun _ => .ok []) (fun _ => .ok []) = [] :=
  dispatcher_unparsable_fail_open _ _

/-- C6 counterexample: the single-letter pattern is not a pure extension
filter under either skip regex, yet the glob extractor returns none for
it, so none is not returned exactly on extension filters. -/
theorem extractQueryFromGlob_none_not_only_extension_filters :
    extractQueryFromGlob "a" = none
    ∧ (isPureExtensionGlob "a" || isExtensionGroupGlob "a") = false := by
  decide

/-- C6 amended: the glob extractor returns none for every pattern that is
purely an extension filter, and also when no segment of length at least
two survives cleaning; the pure-extension pattern maps to none while a
pattern with literal segments yields their space-joined form, which
contains the segment auth. -/
theorem extractQueryFromGlob_extension_filters (p : String)
    (h : isPureExtensionGlob p = true ∨ isExtensionGroupGlob p = true) :
    extractQueryFromGlob p = none
    ∧ extractQueryFromGlob "**/*.py" = none
    ∧ extractQueryFromGlob "src/auth/*.ts" = some "src auth ts"
    ∧ "auth".data <:+: ("src auth ts" : String).data := by
  refine ⟨?_, by decide, by decide, by decide⟩
  unfold extractQueryFromGlob
  rcases h with h | h <;> simp [h]

/-- C6 witness: the pure-extension pattern with a leading segment is
rejected by the extractor. -/
theorem extractQueryFromGlob_extension_filters_witness :
    extractQueryFromGlob "src/**/*.rs" = none :=
  (extractQueryFromGlob_extension_filters "src/**/*.rs" (Or.inl (by decide))).1

/-- replaceAll leaves a text without any occurrence of the pattern
unchanged, for every fuel. -/
theorem replaceAllCs_of_not_hasSub (p r : List Char) :
    ∀ (s : List Char) (f : Nat), hasSub p s = false → replaceAllCs p r f s = s := by
  intro s
  induction s with
  | nil =>
    intro f _
    cases f <;> rfl
  | cons c cs ih =>
    intro f h
    simp only [hasSub, Bool.or_eq_false_iff] at h
    cases f with
    | zero => rfl
    | succ f =>
      simp only [replaceAllCs, h.1, Bool.false_eq_true, if_false]
      rw [ih f h.2]

/-- C7 counterexample: the path-shortening transform is not idempotent:
with cwd slash-a, the text slash-a-slash-a-slash shortens once to
dot-slash-a-slash, in which the rewrite has formed a new occurrence of
cwd plus separator, so a second application rewrites again. -/
theorem shortenResultPaths_not_idempotent :
    shortenResultPaths "/a" (shortenResultPaths "/a" "/a/a/")
      ≠ shortenResultPaths "/a" "/a/a/" := by
  decide

/-- C7 amended: the transform is idempotent on every cwd and text for
which the once-shortened text contains no further occurrence of cwd plus
separator; in general a first pass can form a new occurrence spanning a
rewrite boundary, which only a second pass rewrites. -/
theorem shortenResultPaths_idempotent_of_clean (cwd t : String)
    (h : hasSub (cwdWithSlash cwd).data (shortenResultPaths cwd t).data = false) :
    shortenResultPaths cwd (shortenResultPaths cwd t) = shortenResultPaths cwd t := by
  conv_lhs => rw [shortenResultPaths]
  rw [replaceAllCs_of_not_hasSub _ _ _ _ h]

/-- C7 witness: shortening a path under the working directory once is
already a fixed point when no new occurrence is formed. -/
theorem shortenResultPaths_idempotent_of_clean_witness :
    shortenResultPaths "/work/app" (shortenResultPaths "/work/app" "/work/app/src")
      = shortenResultPaths "/work/app" "/work/app/src" :=
  shortenResultPaths_idempotent_of_clean "/work/app" "/work/app/src" (by decide)

/-- Every pattern returned by the grep-token scan has cleaned length at
least three. -/
theorem grepPatternScan_min_length (flags : List String) :
    ∀ (ts : List String) (sk : Bool) (s : String),
      grepPatternScan flags ts sk = some s → 3 ≤ s.length := by
  intro ts
  induction ts with
  | nil =>
    intro sk s h
    cases sk <;> simp [grepPatternScan] at h
  | cons t ts ih =>
    intro sk s h
    cases sk with
    | true =>
      exact ih false s h
    | false =>
      unfold grepPatternScan at h
      dsimp only at h
      split at h
      · split at h
        · split at h
          · exact Option.noConfusion h
          · split at h
            · split at h
              · cases h
                assumption
              · exact ih _ _ h
            · exact ih _ _ h
        · exact ih _ _ h
      · split at h
        · split at h
          · cases h
            assumption
          · exact ih _ _ h
        · exact ih _ _ h

/-- Every pattern returned by the find-token scan has cleaned length at
least three. -/
theorem findPatternScan_min_length :
    ∀ (ts : List String) (s : String), findPatternScan ts = some s → 3 ≤ s.length := by
  intro ts
  induction ts with
  | nil => intro s h; simp [findPatternScan] at h
  | cons t ts ih =>
    intro s h
    cases ts with
    | nil => simp [findPatternScan] at h
    | cons next rest =>
      unfold findPatternScan at h
      dsimp only at h
      split at h
      · split at h
        · cases h
          rename_i hguard
          exact of_decide_eq_true ((Bool.and_eq_true _ _).mp hguard).2
        · exact ih _ h
      · exact ih _ h

/-- The space-join of a segment list is at least as long as its head. -/
theorem joinSpace_head_le (p : List Char) (ps : List (List Char)) :
    p.length ≤ (joinSpace (p :: ps)).length := by
  cases ps with
  | nil => simp [joinSpace]
  | cons q qs => simp [joinSpace]

/-- A nonempty segment list whose segments all have length at least two
joins to a string of length at least two. -/
theorem globParts_min (l : List (List Char))
    (hall : ∀ p ∈ l, 1 < p.length) (hne : l ≠ []) : 2 ≤ (joinSpace l).length := by
  cases l with
  | nil => exact absurd rfl hne
  | cons q qs =>
    have h1 : 1 < q.length := hall q (List.mem_cons_self q qs)
    have h2 := joinSpace_head_le q qs
    omega

/-- Every non-null glob extraction has length at least two. -/
theorem extractQueryFromGlob_min_length (pat s : String)
    (h : extractQueryFromGlob pat = some s) : 2 ≤ s.length := by
  unfold extractQueryFromGlob at h
  dsimp only at h
  split at h
  · exact Option.noConfusion h
  split at h
  · exact Option.noConfusion h
  split at h
  · exact Option.noConfusion h
  split at h
  case isTrue hne =>
    cases h
    refine globParts_min _ ?_ hne
    intro p hp
    have hp1 := (List.mem_filter.mp hp).1
    have hpred := (List.mem_filter.mp hp1).2
    exact of_decide_eq_true ((Bool.and_eq_true _ _).mp hpred).2
  case isFalse => exact Option.noConfusion h

/-- Every non-null grep extraction is nonempty. -/
theorem extractQueryFromGrep_ne_empty (pat s : String)
    (h : extractQueryFromGrep pat = some s) : s ≠ "" := by
  unfold extractQueryFromGrep cleanRegexPattern at h
  dsimp only at h
  split at h
  · exact Option.noConfusion h
  split at h
  case isTrue => exact Option.noConfusion h
  case isFalse hne =>
    cases h
    intro hcon
    exact hne (congrArg String.data hcon)

/-- Every non-null bash extraction has length at least three. -/
theorem extractQueryFromBash_min_length (cmd s : String)
    (h : extractQueryFromBash cmd = some s) : 3 ≤ s.length := by
  unfold extractQueryFromBash at h
  dsimp only at h
  split at h
  · exact Option.noConfusion h
  split at h
  · exact Option.noConfusion h
  split at h
  · split at h
    · exact findPatternScan_min_length _ _ h
    · exact grepPatternScan_min_length _ _ _ _ h
  · exact Option.noConfusion h

/-- C8 counterexample: the grep extractor and the glob extractor both
return non-null strings of length below three. -/
theorem extractors_length_counterexample :
    extractQueryFromGrep "ab" = some "ab"
    ∧ extractQueryFromGlob "ab" = some "ab"
    ∧ ¬ 3 ≤ ("ab" : String).length := by
  decide

/-- C8 amended: only the bash extractor guarantees length at least three
for every non-null result; the glob extractor guarantees length at least
two, and the grep extractor guarantees only a nonempty string. -/
theorem extractors_length_invariant :
    (∀ cmd s, extractQueryFromBash cmd = some s → 3 ≤ s.length)
    ∧ (∀ pat s, extractQueryFromGlob pat = some s → 2 ≤ s.length)
    ∧ (∀ pat s, extractQueryFromGrep pat = some s → s ≠ "") :=
  ⟨extractQueryFromBash_min_length, extractQueryFromGlob_min_length,
   extractQueryFromGrep_ne_empty⟩

/-- C8 witness: the invariant applied to concrete extractions. -/
theorem extractors_length_invariant_witness :
    3 ≤ ("alphaBeta" : String).length ∧ ("ab" : String) ≠ "" :=
  ⟨extractors_length_invariant.1 "grep alphaBeta f.txt" "alphaBeta" (by decide),
   extractors_length_invariant.2.2 "ab" "ab" (by decide)⟩

/-- C9 counterexample: a process block whose only identifier appears
twice has a single distinct name, yet it contributes an entry point (with
an empty flow), because the gate counts names with multiplicity. -/
theorem parseTextResults_duplicate_name :
    (parseTextResults "process:\nname: fooBar\nname: fooBar").entryPoints
      = [("fooBar", [[]])]
    ∧ (dedupNames (blockNames "process:\nname: fooBar\nname: fooBar".data)).length = 1 := by
  decide

/-- C9 amended: a process block contributes an entry-point/flow pair
exactly when it contains at least two filtered name matches counted with
multiplicity; deduplication happens only afterwards, so a block whose two
matches are the same name still contributes (with an empty flow), while a
block with fewer than two matches leaves the entry-point map untouched. -/
theorem parseTextResults_block_gate :
    (∀ (st : TextInfo) (b : List Char), (blockNames b).length < 2 →
        (processTextBlock st b).entryPoints = st.entryPoints)
    ∧ (∀ b : List Char, hasSub "process:".data b = true →
        2 ≤ (blockNames b).length →
        (processTextBlock emptyTextInfo b).entryPoints
          = [((dedupNames (blockNames b)).headD "",
              [((dedupNames (blockNames b)).drop 1).take 4])]) := by
  constructor
  · intro st b hlt
    unfold processTextBlock
    dsimp only
    split
    · rfl
    · split
      case isTrue h2 => exact absurd h2 (by omega)
      case isFalse => rfl
  · intro b hp h2
    unfold processTextBlock
    simp [hp, h2, epHas, epGet, epPush, emptyTextInfo]

/-- C9 witness: a block with two distinct names contributes its first
name as entry point and the second as the flow. -/
theorem parseTextResults_block_gate_witness :
    (processTextBlock emptyTextInfo ("process:\nname: alphaOne\nname: betaTwo").data).entryPoints
      = [((dedupNames (blockNames ("process:\nname: alphaOne\nname: betaTwo").data)).headD "",
          [((dedupNames (blockNames ("process:\nname: alphaOne\nname: betaTwo").data)).drop 1).take 4])] :=
  parseTextResults_block_gate.2 _ (by decide) (by decide)

end Noodlbox
